import Mathlib

/-!
Shallow embedding of `src/diff.cpp` (a Myers shortest-edit-script diff tool).

Modelling conventions:
* C++ `int` values (positions, diagonals, instruction fields) are `Int`;
  `operator/` on `int` is truncating division, embedded as `Int.div`.
* Sequence element access `s[i]` is embedded as `getI`, which returns `none`
  when the index is out of range: an out-of-range `std::vector`/`std::array`
  read is undefined behaviour in C++, so every function that can perform one
  is `Option`-valued, `none` meaning the C++ program has no defined result.
* The working array `buf` (`std::array<int, 2*max_diff+1>`, uninitialized
  except `buf[max_diff+1] = 0`) is embedded as `Int → Option Int`, indexed by
  the diagonal `k` itself (the C++ index is `max_diff + k`, a constant shift);
  reading an entry that was never written is undefined behaviour, hence `none`.
* `assert` failures abort the program, also embedded as `none`.
* Loops become structurally recursive functions on an explicit iteration
  count.  `snake` receives exactly `(n - x).toNat` steps of fuel: the C++
  loop increments `x` once per iteration and requires `x < n`, so it runs at
  most that many times and the fuel-0 case is only reached with `x ≥ n`,
  where the loop would not run anyway.
* The `std::deque` in `build_edit_script` is only used through `push_back`,
  `pop_back` and `back`, so it is held back-to-front (head = back) and
  reversed on return.
-/

namespace MyersDiff

/-- C++ enum `EditInstructionType` from diff.cpp. -/
inductive EditInstructionType where
  | Delete
  | Add
  | Change
  | Nop
deriving DecidableEq, Repr

/-- C++ struct `EditInstruction` from diff.cpp (all fields are `int`). -/
structure EditInstruction where
  type : EditInstructionType
  orig_start : Int
  orig_length : Int
  new_start : Int
  new_length : Int
deriving DecidableEq, Repr

/-- Element access `s[i]` for an `int` index: `none` when out of range
(undefined behaviour in the C++ source). -/
def getI {α : Type _} (s : List α) (i : Int) : Option α :=
  if 0 ≤ i then s[i.toNat]? else none

/-- The working array of `find_shortest_path`, keyed by diagonal `k`
(C++ index `max_diff + k`); `none` = never written (uninitialized). -/
def Buf : Type := Int → Option Int

/-- Initial buffer: only `buf[max_diff+1] = 0` has been written. -/
def bufInit : Buf := fun j => if j = 1 then some 0 else none

/-- `buf[max_diff+k] = x`. -/
def bufSet (buf : Buf) (k x : Int) : Buf :=
  fun j => if j = k then some x else buf j

/-- The snake-extension loop of `find_shortest_path`:
`while (x < n && y < m) { if (a[x] == b[y]) { x++; y++; } else break; }`.
Fuel is `(n - x).toNat` at the call site (see header comment). -/
def snake {α : Type _} [DecidableEq α] (a b : List α) (n m : Int) :
    Nat → Int → Int → Option (Int × Int)
  | 0, x, y => some (x, y)
  | fuel + 1, x, y =>
    if x < n ∧ y < m then
      match getI a x, getI b y with
      | some av, some bv =>
          if av = bv then snake a b n m fuel (x + 1) (y + 1) else some (x, y)
      | _, _ => none
    else some (x, y)

/-- One run of the inner loop `for (k = -d; k <= d; k += 2)` of
`find_shortest_path`.  `cnt` is the number of remaining iterations
(`d + 1` at the call site).  Result: `none` = undefined behaviour;
`some none` = `(n,m)` was reached and the whole function returned
(discarding the partial record `v`); `some (some (buf, v))` = the loop
finished normally. -/
def kloop {α : Type _} [DecidableEq α] (a b : List α) (n m : Int) (d : Nat) :
    Nat → Int → Buf → List Int → Option (Option (Buf × List Int))
  | 0, _, buf, v => some (some (buf, v))
  | cnt + 1, k, buf, v => do
    -- select previous furthest reaching path (short-circuit as in C++)
    let x ←
      if k = -(d : Int) then buf (k + 1)
      else if k = (d : Int) then (buf (k - 1)).map (· + 1)
      else do
        let xm ← buf (k - 1)
        let xp ← buf (k + 1)
        pure (if xm < xp then xp else xm + 1)
    let y := x - k
    let (x, y) ← snake a b n m (n - x).toNat x y
    let buf := bufSet buf k x
    let v := v ++ [x]
    if x = n ∧ y = m then pure none
    else kloop a b n m d cnt (k + 2) buf v

/-- The outer loop `for (d = 0; d < max_diff; d++)` of `find_shortest_path`.
`fuel` is the number of remaining iterations (`max_diff` at the call site).
When the fuel runs out the function returns the history accumulated so far,
exactly as the C++ loop falls off its end without signalling anything. -/
def dloop {α : Type _} [DecidableEq α] (a b : List α) (n m : Int) :
    Nat → Nat → Buf → List (List Int) → Option (List (List Int))
  | 0, _, _, hist => some hist
  | fuel + 1, d, buf, hist => do
    match ← kloop a b n m d (d + 1) (-(d : Int)) buf [] with
    | none => pure hist
    | some (buf', v) => dloop a b n m fuel (d + 1) buf' (hist ++ [v])

/-- `DiffSolver::find_shortest_path`, generalized over the search limit
(`max_diff`, the constant 10000 in the source).  Returns the recorded
history `history_`. -/
def find_shortest_path_bounded {α : Type _} [DecidableEq α] (maxDiff : Nat)
    (a b : List α) : Option (List (List Int)) :=
  dloop a b (a.length : Int) (b.length : Int) maxDiff 0 bufInit []

/-- `DiffSolver::find_shortest_path` with the source's `max_diff = 10000`. -/
def find_shortest_path {α : Type _} [DecidableEq α] (a b : List α) :
    Option (List (List Int)) :=
  find_shortest_path_bounded 10000 a b

/-- The body of the backward loop of `reconstruct_trace`.  The first
argument is the still-unprocessed part of `history_` in reverse order
(head = record for the current `d`); the `Nat` is the current `d`.
The trace is built by prepending, which matches the C++ push_back-then-
`std::reverse` since the C++ loop runs `d` downward. -/
def rloop (max_n : Int) :
    List (List Int) → Nat → Int → List (Int × Int) → Option (List (Int × Int))
  | [], _, _, trace => some trace
  | v :: rest, d, k, trace => do
    -- assert(v.size() == d+1): failure aborts the program
    if v.length = d + 1 then
      let idx : Int := Int.tdiv ((k - 1) + (d : Int)) 2
      let x1 ← if idx < 0 then pure (-(max_n + 1)) else getI v idx
      let x2 ← if idx > (d : Int) then pure (-(max_n + 1)) else getI v (idx + 1)
      if x1 + 1 > x2 then
        let k' := k - 1
        rloop max_n rest (d - 1) k' ((x1, x1 - k') :: trace)
      else
        let k' := k + 1
        rloop max_n rest (d - 1) k' ((x2, x2 - k') :: trace)
    else none

/-- `DiffSolver::reconstruct_trace` applied to a given `history_`. -/
def reconstruct_trace (history : List (List Int)) (n m : Int) :
    Option (List (Int × Int)) :=
  rloop (if n > m then n else m) history.reverse (history.length - 1) (n - m)
    [(n, m)]

/-- The initial dummy instruction `EditInstruction{Nop,0,0,0,0}` that
`build_edit_script` pushes before its loop. -/
def dummyNop : EditInstruction :=
  { type := .Nop, orig_start := 0, orig_length := 0, new_start := 0, new_length := 0 }

/-- The loop of `build_edit_script` over `trace_`.  `dqrev` is the deque
held back-to-front (head = `dq.back()`); it always starts as `[dummyNop]`
so the `dq.back()` call is defined. -/
def buildLoop :
    List (Int × Int) → List EditInstruction → Int → Int → Int →
      Option (List EditInstruction)
  | [], dqrev, _, _, _ => some dqrev.reverse
  | (xn, yn) :: rest, dqrev, x, y, k =>
    if x = xn ∧ y = yn then buildLoop rest dqrev x y k
    else
      match dqrev with
      | [] => none  -- dq.back() on an empty deque: unreachable
      | last_edit :: earlier =>
        let kn := xn - yn
        if k < kn then
          let edit : EditInstruction :=
            if last_edit.type = .Delete then
              { type := .Delete, orig_start := last_edit.orig_start,
                orig_length := last_edit.orig_length + 1,
                new_start := y, new_length := 0 }
            else
              { type := .Delete, orig_start := x, orig_length := 1,
                new_start := y, new_length := 0 }
          let dqrev' :=
            if last_edit.type = .Delete then edit :: earlier
            else edit :: last_edit :: earlier
          let x' := x + 1
          if x' ≠ xn then
            -- assert(xn - x == yn - y)
            if xn - x' = yn - y then
              let nop : EditInstruction :=
                { type := .Nop, orig_start := x', orig_length := xn - x',
                  new_start := y, new_length := yn - y }
              buildLoop rest (nop :: dqrev') xn yn kn
            else none
          else buildLoop rest dqrev' xn yn kn
        else
          let edit : EditInstruction :=
            if last_edit.type = .Add then
              { type := .Add, orig_start := x, orig_length := 0,
                new_start := last_edit.new_start,
                new_length := last_edit.new_length + 1 }
            else if last_edit.type = .Delete ∨ last_edit.type = .Change then
              { type := .Change, orig_start := last_edit.orig_start,
                orig_length := last_edit.orig_length,
                new_start := last_edit.new_start,
                new_length := last_edit.new_length + 1 }
            else
              { type := .Add, orig_start := x, orig_length := 0,
                new_start := y, new_length := 1 }
          let dqrev' :=
            if last_edit.type = .Add ∨ last_edit.type = .Delete ∨
                last_edit.type = .Change then edit :: earlier
            else edit :: last_edit :: earlier
          let y' := y + 1
          if x ≠ xn then
            if xn - x = yn - y' then
              let nop : EditInstruction :=
                { type := .Nop, orig_start := x, orig_length := xn - x,
                  new_start := y', new_length := yn - y' }
              buildLoop rest (nop :: dqrev') xn yn kn
            else none
          else buildLoop rest dqrev' xn yn kn

/-- `DiffSolver::build_edit_script` applied to a given `trace_`.
`trace_[0]` on an empty trace would be undefined behaviour. -/
def build_edit_script (trace : List (Int × Int)) :
    Option (List EditInstruction) :=
  match trace with
  | [] => none
  | (x0, y0) :: _ => buildLoop trace [dummyNop] x0 y0 (x0 - y0)

/-- `DiffSolver::shortest_edit_script`, generalized over the search limit. -/
def shortest_edit_script_bounded {α : Type _} [DecidableEq α] (maxDiff : Nat)
    (a b : List α) : Option (List EditInstruction) := do
  let hist ← find_shortest_path_bounded maxDiff a b
  let trace ← reconstruct_trace hist (a.length : Int) (b.length : Int)
  build_edit_script trace

/-- `DiffSolver::shortest_edit_script` with the source's `max_diff = 10000`. -/
def shortest_edit_script {α : Type _} [DecidableEq α] (a b : List α) :
    Option (List EditInstruction) :=
  shortest_edit_script_bounded 10000 a b

/-!
Output rendering.  The printers stream text to `std::cout`; we embed the
emitted text as a `List String` of output lines.  ANSI colour codes
(`color_print` wraps its argument in escape sequences) are declared an
external formatting concern by the spec and are not part of the embedding:
we record the text each `color_print`/`operator<<` call emits.  The
`sep_changes` field of `EditSigns` is a raw string (`"---\n"` for normal
output, `""` for unified output); it is embedded as the list of lines it
contributes (`["---"]` resp. `[]`). -/

/-- C++ struct `EditSigns`, with `sep_changes` as the lines it prints. -/
structure EditSigns where
  no_change : String
  deleted : String
  inserted : String
  sep_changes : List String

/-- The default `EditSigns{}` (used by unified output). -/
def defaultSigns : EditSigns := ⟨" ", "-", "+", []⟩

/-- The `EditSigns` that `DiffPrinter::normal_print` sets up. -/
def normalSigns : EditSigns := ⟨" ", "< ", "> ", ["---"]⟩

/-- `ModifiedRange(start, length).to_str()`: `range_ = (start+1, start+length)`,
printed as `N` when the two are equal and `N,M` otherwise. -/
def rangeToStr (start length : Int) : String :=
  let s := start + 1
  let e := start + length
  if s = e then toString s else toString s ++ "," ++ toString e

/-- `ModifiedRange::print_modifications`: emits `sign + seq[i]` for
`i = start-1 .. end-1` (0-based: `start .. start+length-1`).  The iteration
count is `length.toNat` (no iterations when `length ≤ 0`, as in C++).
`none` on an out-of-range `seq[i]` (undefined behaviour). -/
def print_range (seq : List String) (sign : String) :
    Nat → Int → Option (List String)
  | 0, _ => some []
  | cnt + 1, i => do
    let s ← getI seq i
    let rest ← print_range seq sign cnt (i + 1)
    pure ((sign ++ s) :: rest)

/-- `EditInstructionPrinter::print_header` (the header text; `print_header`
is only reached for non-Nop instructions, for which one line is printed). -/
def print_header (es : EditInstruction) : String :=
  match es.type with
  | .Delete => rangeToStr es.orig_start es.orig_length ++ "d" ++ toString es.new_start
  | .Add => toString es.orig_start ++ "a" ++ rangeToStr es.new_start es.new_length
  | .Change =>
      rangeToStr es.orig_start es.orig_length ++ "c" ++
        rangeToStr es.new_start es.new_length
  | .Nop => ""

/-- `EditInstructionPrinter::print_modifications`. -/
def print_modifications (signs : EditSigns) (a b : List String)
    (es : EditInstruction) : Option (List String) :=
  match es.type with
  | .Delete => print_range a signs.deleted es.orig_length.toNat es.orig_start
  | .Add => print_range b signs.inserted es.new_length.toNat es.new_start
  | .Change => do
      let dels ← print_range a signs.deleted es.orig_length.toNat es.orig_start
      let adds ← print_range b signs.inserted es.new_length.toNat es.new_start
      pure (dels ++ signs.sep_changes ++ adds)
  | .Nop => some []

/-- `DiffPrinter::normal_print`: for each non-Nop instruction, the header
line followed by its body lines. -/
def normal_print (a b : List String) :
    List EditInstruction → Option (List String)
  | [] => some []
  | es :: rest => do
    let here ←
      if es.type = .Nop then pure []
      else do
        let body ← print_modifications normalSigns a b es
        pure (print_header es :: body)
    let more ← normal_print a b rest
    pure (here ++ more)

/-- C++ class `Hunk` (member variables). -/
structure Hunk where
  edit_scripts : List EditInstruction
  orig_start_ : Int
  orig_end_ : Int
  new_start_ : Int
  new_end_ : Int
deriving DecidableEq, Repr

/-- The `Hunk(EditInstruction)` constructor. -/
def Hunk.init (es : EditInstruction) : Hunk :=
  { edit_scripts := [es]
    orig_start_ := es.orig_start - 3
    orig_end_ := es.orig_start + es.orig_length + 3
    new_start_ := es.new_start - 3
    new_end_ := es.new_start + es.new_length + 3 }

/-- `Hunk::mergeable`. -/
def Hunk.mergeable (h : Hunk) (es : EditInstruction) : Bool :=
  es.orig_start ≤ h.orig_end_

/-- `Hunk::add_edit_script`. -/
def Hunk.add_edit_script (h : Hunk) (es : EditInstruction) : Hunk :=
  { h with
    edit_scripts := h.edit_scripts ++ [es]
    orig_end_ := es.orig_start + es.orig_length + 3
    new_end_ := es.new_start + es.new_length + 3 }

/-- `Hunk::normalize_range`. -/
def Hunk.normalize_range (h : Hunk) (n m : Int) : Hunk :=
  { h with
    orig_start_ := max h.orig_start_ 0
    orig_end_ := min h.orig_end_ n
    new_start_ := max h.new_start_ 0
    new_end_ := min h.new_end_ m }

/-- `Hunk::make_header` (one output line; the trailing `"\n"` ends it). -/
def Hunk.make_header (h : Hunk) : String :=
  "@@ " ++ "-" ++ toString (h.orig_start_ + 1) ++ "," ++
    toString (h.orig_end_ - h.orig_start_) ++ " " ++ "+" ++
    toString (h.new_start_ + 1) ++ "," ++
    toString (h.new_end_ - h.new_start_) ++ " @@"

/-- The body loop of `Hunk::print_modifications`: context lines
`" " + a[line]` while `line < es.orig_start`, the instruction's own lines,
then `line += es.orig_length`; after the loop, trailing context up to
`orig_end_`.  After the while loop `line = max(line, es.orig_start)`. -/
def hunkBody (a b : List String) (oend : Int) :
    List EditInstruction → Int → Option (List String)
  | [], line => print_range a " " (oend - line).toNat line
  | es :: rest, line => do
    let ctx ← print_range a " " (es.orig_start - line).toNat line
    let body ← print_modifications defaultSigns a b es
    let line' := (if line < es.orig_start then es.orig_start else line) + es.orig_length
    let more ← hunkBody a b oend rest line'
    pure (ctx ++ body ++ more)

/-- `Hunk::print_modifications` (normalizes, then header plus body). -/
def Hunk.print_modifications (h : Hunk) (a b : List String) :
    Option (List String) := do
  let h := h.normalize_range (a.length : Int) (b.length : Int)
  let body ← hunkBody a b h.orig_end_ h.edit_scripts h.orig_start_
  pure (h.make_header :: body)

/-- The hunk-grouping loop of `DiffPrinter::unified_print`.  `hunks.back()`
is mutated in place, so the vector is held back-to-front (head = back)
and reversed on return. -/
def hunksLoop : List EditInstruction → List Hunk → List Hunk
  | [], hunksRev => hunksRev.reverse
  | es :: rest, hunksRev =>
    if es.type = .Nop then hunksLoop rest hunksRev
    else
      match hunksRev with
      | [] => hunksLoop rest [Hunk.init es]
      | h :: hs =>
        if h.mergeable es then hunksLoop rest (h.add_edit_script es :: hs)
        else hunksLoop rest (Hunk.init es :: h :: hs)

/-- The hunk list built by `DiffPrinter::unified_print`. -/
def make_hunks (script : List EditInstruction) : List Hunk :=
  hunksLoop script []

/-- The printing loop at the end of `DiffPrinter::unified_print`. -/
def printHunks (a b : List String) : List Hunk → Option (List String)
  | [] => some []
  | h :: hs => do
    let here ← h.print_modifications a b
    let more ← printHunks a b hs
    pure (here ++ more)

/-- `DiffPrinter::unified_print`: group the non-Nop instructions into hunks,
then print each hunk (the per-file `---`/`+++` header lines are printed by
`print_unified_header` from file metadata, outside this model). -/
def unified_print (a b : List String) (script : List EditInstruction) :
    Option (List String) :=
  printHunks a b (make_hunks script)

/-!
Spec-side definitions.  These are NOT translations of diff.cpp; each
follows the spec's words and is used to state a claim about the code's
output (the repository itself contains no script-application code and no
executable statement of the script invariants).
-/

/-- Modelled from the spec: the sublist `s[i..i+len)` of a sequence,
`none` when any index is out of range. -/
def sliceI {α : Type _} (s : List α) : Int → Nat → Option (List α)
  | _, 0 => some []
  | i, cnt + 1 => do
    let v ← getI s i
    let rest ← sliceI s (i + 1) cnt
    pure (v :: rest)

/-- Modelled from the spec (round-trip property): applying the
Delete/Add/Change operations of an edit script to `a`, in order.  Each
non-NoOp instruction replaces `a[origStart..origStart+origLength)` by
`b[newStart..newStart+newLength)` (nothing, for a Delete); the portions of
`a` between the rewritten ranges are kept unchanged.  NoOp instructions
modify nothing. -/
def applyLoop {α : Type _} (a b : List α) :
    List EditInstruction → Int → Option (List α)
  | [], x => sliceI a x ((a.length : Int) - x).toNat
  | es :: rest, x =>
    if es.type = .Nop then applyLoop a b rest x
    else do
      let pre ← sliceI a x (es.orig_start - x).toNat
      let ins ←
        if es.type = .Delete then pure []
        else sliceI b es.new_start es.new_length.toNat
      let post ← applyLoop a b rest (es.orig_start + es.orig_length)
      pure (pre ++ ins ++ post)

/-- Modelled from the spec: apply an edit script to `a` (with `b` supplying
the inserted material, as the instructions only carry ranges into `b`). -/
def applyEditScript {α : Type _} (a b : List α)
    (script : List EditInstruction) : Option (List α) :=
  applyLoop a b script 0

/-- Contiguous tiling of the original-side ranges: the instructions' orig
ranges, read in order, cover exactly `[s, e)` with no gaps or overlaps. -/
def tilesOrigB : Int → List EditInstruction → Int → Bool
  | s, [], e => s == e
  | s, i :: rest, e => (i.orig_start == s) && tilesOrigB (s + i.orig_length) rest e

/-- Contiguous tiling of the new-side ranges. -/
def tilesNewB : Int → List EditInstruction → Int → Bool
  | s, [], e => s == e
  | s, i :: rest, e => (i.new_start == s) && tilesNewB (s + i.new_length) rest e

/-- Modelled from the spec, C9's invariant, exactly as claimed: lengths
are ≥ 0; Delete has `new_length = 0`; Add has `orig_length = 0`; Change has
both > 0; the instructions partition `[0,n)` and `[0,m)` contiguously in
order; no two adjacent instructions share a kind; and no instruction is
zero-width on both sides except a pure Delete or Add. -/
def claimedScriptInvariant (n m : Int) (s : List EditInstruction) : Bool :=
  s.all (fun e =>
    decide (0 ≤ e.orig_length) && decide (0 ≤ e.new_length) &&
    (match e.type with
     | .Delete => e.new_length == 0
     | .Add => e.orig_length == 0
     | .Change => decide (0 < e.orig_length) && decide (0 < e.new_length)
     | .Nop => true) &&
    (e.type == .Delete || e.type == .Add ||
      (decide (0 < e.orig_length) || decide (0 < e.new_length)))) &&
  tilesOrigB 0 s n && tilesNewB 0 s m &&
  (s.zip s.tail).all (fun p => !(p.1.type == p.2.type))

/-- One valid step between consecutive trace anchors: either the point
repeats, or the diagonal changes by exactly one with the matching
coordinate advancing (a delete step when k grows, an insert step when it
shrinks), any remainder being a snake (equal advance on both sides, which
the diagonal equation already enforces). -/
def validStepB (p q : Int × Int) : Bool :=
  decide (p = q) ||
    (if p.1 - p.2 < q.1 - q.2 then
      decide (q.1 - q.2 = p.1 - p.2 + 1) && decide (p.1 + 1 ≤ q.1)
    else
      decide (q.1 - q.2 = p.1 - p.2 - 1) && decide (p.2 + 1 ≤ q.2))

/-- A trace whose consecutive anchors are all valid steps. -/
def validTraceB : List (Int × Int) → Bool
  | [] => true
  | [_] => true
  | p :: q :: rest => validStepB p q && validTraceB (q :: rest)

/-- Shape facts for non-initial instructions of a built script. -/
def shapeOK (e : EditInstruction) : Prop :=
  0 ≤ e.orig_length ∧ 0 ≤ e.new_length ∧
  (e.type = .Delete → e.new_length = 0 ∧ 1 ≤ e.orig_length) ∧
  (e.type = .Add → e.orig_length = 0 ∧ 1 ≤ e.new_length) ∧
  (e.type = .Change → 1 ≤ e.orig_length ∧ 1 ≤ e.new_length) ∧
  (e.type = .Nop → 1 ≤ e.orig_length ∧ e.orig_length = e.new_length)

/-- Adjacent instructions never share a kind, except that two Changes can
sit next to each other. -/
def adjRel (p q : EditInstruction) : Prop :=
  p.type = q.type → p.type = .Change

/-- `tilesOrigB` as a Prop (forward order). -/
def tilesOrig : Int → List EditInstruction → Int → Prop
  | s, [], e => s = e
  | s, i :: rest, e => i.orig_start = s ∧ tilesOrig (s + i.orig_length) rest e

/-- `tilesNewB` as a Prop (forward order). -/
def tilesNew : Int → List EditInstruction → Int → Prop
  | s, [], e => s = e
  | s, i :: rest, e => i.new_start = s ∧ tilesNew (s + i.new_length) rest e

/-- Original-side tiling of a back-to-front instruction list. -/
def tilesOrigRev : Int → List EditInstruction → Int → Prop
  | s, [], e => s = e
  | s, i :: restRev, e =>
      i.orig_start + i.orig_length = e ∧ tilesOrigRev s restRev i.orig_start

/-- New-side tiling of a back-to-front instruction list. -/
def tilesNewRev : Int → List EditInstruction → Int → Prop
  | s, [], e => s = e
  | s, i :: restRev, e =>
      i.new_start + i.new_length = e ∧ tilesNewRev s restRev i.new_start

/-- The running invariant of `buildLoop`'s deque (held back-to-front,
above the initial `dummyNop`): shapes, adjacency, and tilings from the
first anchor `(x0, y0)` up to the current position `(x, y)`. -/
def BuildInv (x0 y0 : Int) (srev : List EditInstruction) (x y : Int) : Prop :=
  (∀ e ∈ srev, shapeOK e) ∧
  List.Chain' adjRel (srev ++ [dummyNop]) ∧
  tilesOrigRev x0 srev x ∧ tilesNewRev y0 srev y

/-- What `buildLoop` delivers on the remaining anchors `pts` from current
anchor `p`: a deque satisfying the invariant up to the final anchor. -/
def BuildGoal (x0 y0 : Int) (pts : List (Int × Int)) (p : Int × Int)
    (r : Option (List EditInstruction)) : Prop :=
  ∃ s2, r = some ((s2 ++ [dummyNop]).reverse) ∧
    BuildInv x0 y0 s2 ((p :: pts).getLastD p).1 ((p :: pts).getLastD p).2

/-- The induction hypothesis shape for `buildLoop_invariant`. -/
def IHtype (x0 y0 : Int) (pts : List (Int × Int)) : Prop :=
  ∀ (x y : Int) (srev : List EditInstruction),
    validTraceB ((x, y) :: pts) = true →
    BuildInv x0 y0 srev x y →
    BuildGoal x0 y0 pts (x, y) (buildLoop pts (srev ++ [dummyNop]) x y (x - y))

/-!
Helper lemmas.
-/

theorem adjRel_symm {p q : EditInstruction} (h : adjRel p q) : adjRel q p := by
  unfold adjRel at *
  intro hq
  rw [hq] at h ⊢
  exact h (by rfl)

theorem adjRel_congr {p p' q : EditInstruction} (h : p.type = p'.type) :
    adjRel p q ↔ adjRel p' q := by
  unfold adjRel
  rw [h]

theorem tilesOrigRev_append (i : EditInstruction) :
    ∀ (l : List EditInstruction) (s e : Int),
      tilesOrigRev s (l ++ [i]) e ↔
        i.orig_start = s ∧ tilesOrigRev (s + i.orig_length) l e := by
  intro l
  induction l with
  | nil =>
    intro s e
    simp only [List.nil_append, tilesOrigRev]
    constructor
    · rintro ⟨h1, h2⟩; exact ⟨h2.symm, by omega⟩
    · rintro ⟨h1, h2⟩; exact ⟨by omega, h1.symm⟩
  | cons j rest ih =>
    intro s e
    simp only [List.cons_append, tilesOrigRev, List.append_eq, ih]
    tauto

theorem tilesNewRev_append (i : EditInstruction) :
    ∀ (l : List EditInstruction) (s e : Int),
      tilesNewRev s (l ++ [i]) e ↔
        i.new_start = s ∧ tilesNewRev (s + i.new_length) l e := by
  intro l
  induction l with
  | nil =>
    intro s e
    simp only [List.nil_append, tilesNewRev]
    constructor
    · rintro ⟨h1, h2⟩; exact ⟨h2.symm, by omega⟩
    · rintro ⟨h1, h2⟩; exact ⟨by omega, h1.symm⟩
  | cons j rest ih =>
    intro s e
    simp only [List.cons_append, tilesNewRev, List.append_eq, ih]
    tauto

theorem tilesOrig_iff_rev :
    ∀ (l : List EditInstruction) (s e : Int),
      tilesOrig s l e ↔ tilesOrigRev s l.reverse e := by
  intro l
  induction l with
  | nil => intro s e; simp [tilesOrig, tilesOrigRev]
  | cons i rest ih =>
    intro s e
    simp only [tilesOrig, List.reverse_cons, tilesOrigRev_append, ih]

theorem tilesNew_iff_rev :
    ∀ (l : List EditInstruction) (s e : Int),
      tilesNew s l e ↔ tilesNewRev s l.reverse e := by
  intro l
  induction l with
  | nil => intro s e; simp [tilesNew, tilesNewRev]
  | cons i rest ih =>
    intro s e
    simp only [tilesNew, List.reverse_cons, tilesNewRev_append, ih]

theorem BuildGoal_cons (x0 y0 : Int) (q : Int × Int) (pts : List (Int × Int))
    (p : Int × Int) (r : Option (List EditInstruction)) :
    BuildGoal x0 y0 (q :: pts) p r ↔ BuildGoal x0 y0 pts q r := by
  unfold BuildGoal
  rw [List.getLastD_cons, List.getLastD_cons, List.getLastD_cons]

theorem buildLoop_finish (x0 y0 : Int) (rest' : List (Int × Int))
    (hIH : IHtype x0 y0 rest') (xn yn x' y' : Int)
    (ed : EditInstruction) (srevTail : List EditInstruction)
    (hv2 : validTraceB ((xn, yn) :: rest') = true)
    (hinv : BuildInv x0 y0 (ed :: srevTail) x' y')
    (heq : xn - x' = yn - y') (hle : x' ≤ xn)
    (hed : ed.type ≠ EditInstructionType.Nop) :
    BuildGoal x0 y0 rest' (xn, yn)
      (if x' ≠ xn then
        if xn - x' = yn - y' then
          buildLoop rest'
            ({ type := .Nop, orig_start := x', orig_length := xn - x',
               new_start := y', new_length := yn - y' } ::
              ((ed :: srevTail) ++ [dummyNop]))
            xn yn (xn - yn)
        else none
      else buildLoop rest' ((ed :: srevTail) ++ [dummyNop]) xn yn (xn - yn)) := by
  obtain ⟨hshape, hchain, hto, htn⟩ := hinv
  by_cases hxe : x' = xn
  · rw [if_neg (by omega)]
    have hye : y' = yn := by omega
    subst hxe
    subst hye
    exact hIH x' y' (ed :: srevTail) hv2 ⟨hshape, hchain, hto, htn⟩
  · rw [if_pos hxe, if_pos heq]
    have hnshape : shapeOK
        { type := .Nop, orig_start := x', orig_length := xn - x',
          new_start := y', new_length := yn - y' } := by
      refine ⟨?_, ?_, ?_, ?_, ?_, ?_⟩
      · show (0 : Int) ≤ xn - x'
        omega
      · show (0 : Int) ≤ yn - y'
        omega
      · intro h
        exact absurd (show EditInstructionType.Nop = .Delete from h) (by decide)
      · intro h
        exact absurd (show EditInstructionType.Nop = .Add from h) (by decide)
      · intro h
        exact absurd (show EditInstructionType.Nop = .Change from h) (by decide)
      · intro h
        exact ⟨show (1 : Int) ≤ xn - x' by omega,
          show xn - x' = yn - y' by omega⟩
    have hgoal := hIH xn yn
      ({ type := .Nop, orig_start := x', orig_length := xn - x',
         new_start := y', new_length := yn - y' } :: ed :: srevTail) hv2 ?_
    · rw [List.cons_append] at hgoal
      exact hgoal
    refine ⟨?_, ?_, ?_, ?_⟩
    · intro e he
      rcases List.mem_cons.mp he with h | h
      · subst h
        exact hnshape
      · exact hshape e h
    · rw [List.cons_append]
      refine List.chain'_cons'.mpr ⟨?_, hchain⟩
      intro b hb
      simp only [List.cons_append, List.head?_cons, Option.mem_def,
        Option.some.injEq] at hb
      subst hb
      intro htypes
      exact absurd htypes.symm hed
    · exact ⟨show x' + (xn - x') = xn by omega, hto⟩
    · exact ⟨show y' + (yn - y') = yn by omega, htn⟩

theorem buildLoop_invariant (x0 y0 : Int) :
    ∀ (pts : List (Int × Int)), IHtype x0 y0 pts := by
  intro pts
  induction pts with
  | nil =>
    intro x y srev hv hinv
    refine ⟨srev, rfl, ?_⟩
    simpa [List.getLastD] using hinv
  | cons q rest' ih =>
    rcases q with ⟨xn, yn⟩
    intro x y srev hv hinv
    simp only [validTraceB, Bool.and_eq_true] at hv
    obtain ⟨hv1, hv2⟩ := hv
    rw [BuildGoal_cons]
    by_cases hskip : x = xn ∧ y = yn
    · obtain ⟨hx, hy⟩ := hskip
      subst hx
      subst hy
      rw [buildLoop.eq_def]
      simp only [if_pos (⟨rfl, rfl⟩ : x = x ∧ y = y)]
      exact ih x y srev hv2 hinv
    · simp only [validStepB, Bool.or_eq_true, decide_eq_true_eq,
        Bool.and_eq_true, Prod.mk.injEq] at hv1
      rcases hv1 with heq | hstep
      · exact absurd heq hskip
      obtain ⟨hshape, hchain, hto, htn⟩ := hinv
      rw [buildLoop.eq_def]
      simp only [if_neg hskip]
      by_cases hkk : x - y < xn - yn
      · rw [if_pos hkk] at hstep
        simp only [Bool.and_eq_true, decide_eq_true_eq] at hstep
        obtain ⟨hkn, hxx⟩ := hstep
        cases srev with
        | nil =>
          simp only [List.nil_append, dummyNop, reduceIte, hkk, if_true]
          refine buildLoop_finish x0 y0 rest' ih xn yn (x + 1) y
            { type := .Delete, orig_start := x, orig_length := 1,
              new_start := y, new_length := 0 } [] hv2
            ⟨?_, ?_, ?_, ?_⟩ (by omega) (by omega) (by simp)
          · intro e he
            rcases List.mem_cons.mp he with h | h
            · subst h
              refine ⟨?_, ?_, ?_, ?_, ?_, ?_⟩ <;> simp <;> omega
            · exact absurd h (by simp)
          · refine List.chain'_cons'.mpr ⟨?_, ?_⟩
            · intro b hb
              simp only [List.append_eq, List.nil_append, List.cons_append,
                List.head?_cons, Option.mem_def, Option.some.injEq] at hb
              subst hb
              intro h
              simp [dummyNop] at h
            · exact List.chain'_singleton _
          · exact ⟨by simp, hto⟩
          · exact ⟨by simp, htn⟩
        | cons last srev' =>
          simp only [List.cons_append, hkk, if_true]
          by_cases hD : last.type = EditInstructionType.Delete
          · simp only [hD, reduceIte]
            have hld := (hshape last (List.mem_cons_self _ _)).2.2.1 hD
            refine buildLoop_finish x0 y0 rest' ih xn yn (x + 1) y
              { type := .Delete, orig_start := last.orig_start,
                orig_length := last.orig_length + 1,
                new_start := y, new_length := 0 } srev' hv2
              ⟨?_, ?_, ?_, ?_⟩ (by omega) (by omega) (by simp)
            · intro e he
              rcases List.mem_cons.mp he with h | h
              · subst h
                refine ⟨?_, ?_, ?_, ?_, ?_, ?_⟩ <;> simp <;> omega
              · exact hshape e (List.mem_cons_of_mem _ h)
            · rcases List.chain'_cons'.mp hchain with ⟨hhd, htl⟩
              refine List.chain'_cons'.mpr ⟨?_, htl⟩
              intro b hb
              refine (adjRel_congr ?_).mpr (hhd b hb)
              simp [hD]
            · obtain ⟨h1, h2⟩ := hto
              exact ⟨by simp <;> omega, h2⟩
            · obtain ⟨h1, h2⟩ := htn
              refine ⟨by simp <;> omega, ?_⟩
              have heq2 : last.new_start = y := by omega
              rwa [heq2] at h2
          · simp only [hD, reduceIte]
            refine buildLoop_finish x0 y0 rest' ih xn yn (x + 1) y
              { type := .Delete, orig_start := x, orig_length := 1,
                new_start := y, new_length := 0 } (last :: srev') hv2
              ⟨?_, ?_, ?_, ?_⟩ (by omega) (by omega) (by simp)
            · intro e he
              rcases List.mem_cons.mp he with h | h
              · subst h
                refine ⟨?_, ?_, ?_, ?_, ?_, ?_⟩ <;> simp <;> omega
              · exact hshape e h
            · refine List.chain'_cons'.mpr ⟨?_, hchain⟩
              intro b hb
              simp only [List.append_eq, List.nil_append, List.cons_append,
                List.head?_cons, Option.mem_def, Option.some.injEq] at hb
              subst hb
              intro h
              exact absurd h.symm hD
            · exact ⟨by simp, hto⟩
            · exact ⟨by simp, htn⟩
      · rw [if_neg hkk] at hstep
        simp only [Bool.and_eq_true, decide_eq_true_eq] at hstep
        obtain ⟨hkn, hyy⟩ := hstep
        cases srev with
        | nil =>
          simp only [List.nil_append, dummyNop, reduceIte, hkk, if_false]
          refine buildLoop_finish x0 y0 rest' ih xn yn x (y + 1)
            { type := .Add, orig_start := x, orig_length := 0,
              new_start := y, new_length := 1 } [] hv2
            ⟨?_, ?_, ?_, ?_⟩ (by omega) (by omega) (by simp)
          · intro e he
            rcases List.mem_cons.mp he with h | h
            · subst h
              refine ⟨?_, ?_, ?_, ?_, ?_, ?_⟩ <;> simp <;> omega
            · exact absurd h (by simp)
          · refine List.chain'_cons'.mpr ⟨?_, ?_⟩
            · intro b hb
              simp only [List.append_eq, List.nil_append, List.cons_append,
                List.head?_cons, Option.mem_def, Option.some.injEq] at hb
              subst hb
              intro h
              simp [dummyNop] at h
            · exact List.chain'_singleton _
          · exact ⟨by simp, hto⟩
          · exact ⟨by simp, htn⟩
        | cons last srev' =>
          simp only [List.cons_append, hkk, if_false]
          by_cases hA : last.type = EditInstructionType.Add
          · simp only [hA, reduceIte]
            have hla := (hshape last (List.mem_cons_self _ _)).2.2.2.1 hA
            refine buildLoop_finish x0 y0 rest' ih xn yn x (y + 1)
              { type := .Add, orig_start := x, orig_length := 0,
                new_start := last.new_start,
                new_length := last.new_length + 1 } srev' hv2
              ⟨?_, ?_, ?_, ?_⟩ (by omega) (by omega) (by simp)
            · intro e he
              rcases List.mem_cons.mp he with h | h
              · subst h
                refine ⟨?_, ?_, ?_, ?_, ?_, ?_⟩ <;> simp <;> omega
              · exact hshape e (List.mem_cons_of_mem _ h)
            · rcases List.chain'_cons'.mp hchain with ⟨hhd, htl⟩
              refine List.chain'_cons'.mpr ⟨?_, htl⟩
              intro b hb
              refine (adjRel_congr ?_).mpr (hhd b hb)
              simp [hA]
            · obtain ⟨h1, h2⟩ := hto
              refine ⟨by simp <;> omega, ?_⟩
              have heq2 : last.orig_start = x := by omega
              rwa [heq2] at h2
            · obtain ⟨h1, h2⟩ := htn
              exact ⟨by simp <;> omega, h2⟩
          · by_cases hDC : last.type = EditInstructionType.Delete ∨
                last.type = EditInstructionType.Change
            · simp only [hA, hDC, reduceIte, if_true, if_false, or_true,
                true_or, or_false, false_or]
              have hol : 1 ≤ last.orig_length := by
                rcases hDC with h | h
                · exact ((hshape last (List.mem_cons_self _ _)).2.2.1 h).2
                · exact ((hshape last (List.mem_cons_self _ _)).2.2.2.2.1 h).1
              have hnl : 0 ≤ last.new_length :=
                (hshape last (List.mem_cons_self _ _)).2.1
              refine buildLoop_finish x0 y0 rest' ih xn yn x (y + 1)
                { type := .Change, orig_start := last.orig_start,
                  orig_length := last.orig_length,
                  new_start := last.new_start,
                  new_length := last.new_length + 1 } srev' hv2
                ⟨?_, ?_, ?_, ?_⟩ (by omega) (by omega) (by simp)
              · intro e he
                rcases List.mem_cons.mp he with h | h
                · subst h
                  refine ⟨?_, ?_, ?_, ?_, ?_, ?_⟩ <;> simp <;> omega
                · exact hshape e (List.mem_cons_of_mem _ h)
              · rcases List.chain'_cons'.mp hchain with ⟨hhd, htl⟩
                refine List.chain'_cons'.mpr ⟨?_, htl⟩
                intro b hb
                intro h
                rfl
              · obtain ⟨h1, h2⟩ := hto
                exact ⟨by simp <;> omega, h2⟩
              · obtain ⟨h1, h2⟩ := htn
                exact ⟨by simp <;> omega, h2⟩
            · simp only [hA, hDC, reduceIte, if_false, false_or]
              refine buildLoop_finish x0 y0 rest' ih xn yn x (y + 1)
                { type := .Add, orig_start := x, orig_length := 0,
                  new_start := y, new_length := 1 } (last :: srev') hv2
                ⟨?_, ?_, ?_, ?_⟩ (by omega) (by omega) (by simp)
              · intro e he
                rcases List.mem_cons.mp he with h | h
                · subst h
                  refine ⟨?_, ?_, ?_, ?_, ?_, ?_⟩ <;> simp <;> omega
                · exact hshape e h
              · refine List.chain'_cons'.mpr ⟨?_, hchain⟩
                intro b hb
                simp only [List.append_eq, List.nil_append, List.cons_append,
                  List.head?_cons, Option.mem_def, Option.some.injEq] at hb
                subst hb
                intro h
                exact absurd h.symm hA
              · exact ⟨by simp, hto⟩
              · exact ⟨by simp, htn⟩

/-- C9 (amended): a script built by `build_edit_script` from a non-empty,
step-valid trace is the initial zero-width `{Nop,0,0,0,0}` followed by
instructions with: lengths ≥ 0; Delete `new_length = 0` and `orig_length ≥ 1`;
Add `orig_length = 0` and `new_length ≥ 1`; Change both ≥ 1; NoOps of equal
positive width; no two adjacent instructions of the same kind except that two
Changes may be adjacent; and the instructions tile `[x0, xe)` and `[y0, ye)`
contiguously, where `(x0,y0)` is the FIRST trace anchor (the end of the
initial snake, so the initial matched prefix is not covered) and `(xe,ye)`
the last. -/
theorem c9_script_invariants_amended (t0 : Int × Int)
    (rest : List (Int × Int)) (hv : validTraceB (t0 :: rest) = true) :
    ∃ s', build_edit_script (t0 :: rest) = some (dummyNop :: s') ∧
      (∀ e ∈ s', shapeOK e) ∧
      List.Chain' adjRel (dummyNop :: s') ∧
      tilesOrig t0.1 s' ((t0 :: rest).getLastD t0).1 ∧
      tilesNew t0.2 s' ((t0 :: rest).getLastD t0).2 := by
  rcases t0 with ⟨x0, y0⟩
  unfold build_edit_script
  have h := buildLoop_invariant x0 y0 rest x0 y0 [] hv
    ⟨fun e he => absurd he (by simp), by
        simpa using List.chain'_singleton dummyNop,
      rfl, rfl⟩
  rw [List.nil_append] at h
  obtain ⟨s2, hr, hs, hc, hto2, htn2⟩ := h
  refine ⟨s2.reverse, ?_, ?_, ?_, ?_, ?_⟩
  · show buildLoop ((x0, y0) :: rest) [dummyNop] x0 y0 (x0 - y0) =
      some (dummyNop :: s2.reverse)
    rw [buildLoop.eq_def]
    simp only [if_pos (⟨rfl, rfl⟩ : x0 = x0 ∧ y0 = y0)]
    rw [hr]
    simp
  · intro e he
    exact hs e (List.mem_reverse.mp he)
  · have heq : dummyNop :: s2.reverse = (s2 ++ [dummyNop]).reverse := by simp
    rw [heq, List.chain'_reverse]
    exact hc.imp fun a b hab => adjRel_symm hab
  · rw [tilesOrig_iff_rev, List.reverse_reverse]
    exact hto2
  · rw [tilesNew_iff_rev, List.reverse_reverse]
    exact htn2

theorem snake_self {α : Type _} [DecidableEq α] (a : List α) :
    ∀ (fuel : Nat) (x : Int), 0 ≤ x → x ≤ (a.length : Int) →
      fuel = ((a.length : Int) - x).toNat →
      snake a a (a.length : Int) (a.length : Int) fuel x x =
        some ((a.length : Int), (a.length : Int)) := by
  intro fuel
  induction fuel with
  | zero =>
    intro x hx0 hxn hf
    have : x = (a.length : Int) := by omega
    subst this
    simp [snake]
  | succ fuel ih =>
    intro x hx0 hxn hf
    have hxlt : x < (a.length : Int) := by omega
    have hget : getI a x = some (a.get ⟨x.toNat, by omega⟩) := by
      simp [getI, hx0, List.getElem?_eq_getElem, (by omega : x.toNat < a.length)]
    rw [snake]
    rw [if_pos ⟨hxlt, hxlt⟩, hget]
    simp only [if_pos rfl]
    exact ih (x + 1) (by omega) (by omega) (by omega)

theorem find_self {α : Type _} [DecidableEq α] (a : List α) :
    find_shortest_path a a = some [] := by
  have hs := snake_self a (a.length : Int).toNat 0 (by omega) (by omega)
    (by omega)
  unfold find_shortest_path find_shortest_path_bounded
  rw [show (10000 : Nat) = 9999 + 1 from rfl]
  rw [dloop]
  rw [kloop]
  simp only [Nat.cast_zero, neg_zero, if_pos rfl, bufInit, zero_add,
    if_pos rfl, Option.bind_eq_bind, Option.some_bind, zero_sub, sub_zero,
    if_true]
  rw [hs]
  simp


theorem ses_self {α : Type _} [DecidableEq α] (a : List α) :
    shortest_edit_script a a = some [dummyNop] := by
  unfold shortest_edit_script shortest_edit_script_bounded
  rw [show find_shortest_path_bounded 10000 a a = some [] from find_self a]
  simp only [Option.bind_eq_bind, Option.some_bind]
  rw [reconstruct_trace]
  simp only [List.reverse_nil, rloop, Option.some_bind]
  rw [build_edit_script]
  rw [buildLoop]
  simp [buildLoop]

/-- C3 (amended): for every sequence `a`, `shortest_edit_script(a, a)` is a
single NoOp instruction — but the zero-length `{Nop,0,0,0,0}`, not one
covering `[0,n)` (the initial snake consumes the whole input before the
first trace anchor, and `build_edit_script` only ever returns its dummy
initial NoOp) — and `normal_print` emits no output lines for that script. -/
theorem c3_identity_amended (a : List String) :
    shortest_edit_script a a = some [dummyNop] ∧
    normal_print a a [dummyNop] = some [] := by
  refine ⟨ses_self a, ?_⟩
  simp [normal_print, dummyNop]

/-- C7 (amended): in unified output, two non-NoOp instructions fall into
the same hunk exactly when the second one's `origStart` is at most
`origStart + origLength + 3` of the first (at most 3 unchanged lines
between the end of the first edit and the start of the second) — not when
their `origStart`s differ by ≤ 6 — and `normalize_range` clamps every
hunk's window into `[0,n)` / `[0,m)` before rendering. -/
theorem c7_hunk_merge_amended (e1 e2 : EditInstruction) (h1 : e1.type ≠ .Nop)
    (h2 : e2.type ≠ .Nop) (n m : Int) (hk : Hunk) :
    (make_hunks [e1, e2]).length =
      (if e2.orig_start ≤ e1.orig_start + e1.orig_length + 3 then 1 else 2) ∧
    0 ≤ (hk.normalize_range n m).orig_start_ ∧
    (hk.normalize_range n m).orig_end_ ≤ n ∧
    0 ≤ (hk.normalize_range n m).new_start_ ∧
    (hk.normalize_range n m).new_end_ ≤ m := by
  constructor
  · unfold make_hunks hunksLoop
    rw [if_neg h1]
    unfold hunksLoop
    rw [if_neg h2]
    by_cases hmerge : e2.orig_start ≤ e1.orig_start + e1.orig_length + 3
    · rw [if_pos hmerge]
      simp [hunksLoop, Hunk.mergeable, Hunk.init, hmerge]
    · rw [if_neg hmerge]
      simp [hunksLoop, Hunk.mergeable, Hunk.init, hmerge]
  · refine ⟨le_max_right _ _, min_le_right _ _, le_max_right _ _, min_le_right _ _⟩

/-!
Claim theorems.
-/

/-- C1: the round-trip property cannot hold for every pair of sequences,
because the pipeline itself is not defined on every pair: for
`a = ["A","B"]`, `b = ["B"]` the search converges (history `[[0]]`), but
`reconstruct_trace` reads index 1 of the single-element record for
distance 0 — past the end of the `std::vector` — so
`shortest_edit_script` has no well-defined result at all. -/
theorem c1_roundtrip_hits_oob_read :
    find_shortest_path ["A", "B"] ["B"] = some [[0]] ∧
    reconstruct_trace [[0]] 2 1 = none ∧
    shortest_edit_script ["A", "B"] ["B"] = none := by
  refine ⟨by decide, by decide, by decide⟩

/-- C2: minimality cannot hold for every in-bound pair: for
`a = ["A","B"]`, `b = ["A"]` the shortest edit distance is 1 (well within
the bound 10000) and the search converges with history `[[1]]`, yet the
backward trace reads past the end of that one-element record, so no edit
script is returned whose deleted+inserted count could equal d*. -/
theorem c2_minimality_hits_oob_read :
    find_shortest_path ["A", "B"] ["A"] = some [[1]] ∧
    reconstruct_trace [[1]] 2 1 = none ∧
    shortest_edit_script ["A", "B"] ["A"] = none := by
  refine ⟨by decide, by decide, by decide⟩

/-- C4: for the disjoint pair `a = ["A"]`, `b = ["B"]` the search converges
(history `[[0],[0,1]]`), but the backward trace again reads index 1 of the
one-element distance-0 record, so no single-Change script (nor any script)
is returned. -/
theorem c4_disjoint_hits_oob_read :
    find_shortest_path ["A"] ["B"] = some [[0], [0, 1]] ∧
    reconstruct_trace [[0], [0, 1]] 1 1 = none ∧
    shortest_edit_script ["A"] ["B"] = none := by
  refine ⟨by decide, by decide, by decide⟩

/-- C6: the neighbour lookups of `reconstruct_trace` are NOT always in
bounds.  For `a = ["A"]`, `b = []` the history is `[[0]]`; at distance
level `d = 0` the walk sits on diagonal `k = 1`, so `idx = (k-1+d)/2 = 0`
passes the `idx > d` guard and `v[idx+1] = v[1]` is read from the
one-element record `[0]` — an out-of-bounds access (the guard is off by
one: it admits `idx = d`, but the record has indices `0..d` only). -/
theorem c6_reconstruct_reads_out_of_bounds :
    find_shortest_path ["A"] ([] : List String) = some [[0]] ∧
    reconstruct_trace [[0]] 1 0 = none := by
  refine ⟨by decide, by decide⟩

/-- C8: on the spec's own example `a = ["A","B","C"]`, `b = ["A","X","C"]`
the pipeline performs the same out-of-bounds history read, so it returns no
script; the printers, applied to the script the claim expects, do produce
exactly the claimed normal header and unified hunk — but with leading NoOp
`{Nop,0,0,0,0}` the code's `build_edit_script` would emit instead of
`NoOp(0,1/0,1)` even under the intended in-bounds semantics. -/
theorem c8_example_hits_oob_read :
    shortest_edit_script ["A", "B", "C"] ["A", "X", "C"] = none ∧
    normal_print ["A", "B", "C"] ["A", "X", "C"]
        [⟨.Nop, 0, 1, 0, 1⟩, ⟨.Change, 1, 1, 1, 1⟩, ⟨.Nop, 2, 1, 2, 1⟩] =
      some ["2c2", "< B", "---", "> X"] ∧
    unified_print ["A", "B", "C"] ["A", "X", "C"]
        [⟨.Nop, 0, 1, 0, 1⟩, ⟨.Change, 1, 1, 1, 1⟩, ⟨.Nop, 2, 1, 2, 1⟩] =
      some ["@@ -1,3 +1,3 @@", " A", "-B", "+X", " C"] := by
  refine ⟨by decide, by decide, by decide⟩

/-- C5: when the search bound is exceeded, no failure is surfaced: the
bounded search (shown here at bound 1, the same loop the source runs with
`max_diff = 10000`) falls off the end of its loop, and the pipeline then
builds and returns an ordinary-looking script that does NOT transform `a`
into `b` — silent truncation instead of an explicit error. -/
theorem c5_bound_exceeded_returns_wrong_script :
    shortest_edit_script_bounded 1 ([] : List String) ["A", "B"] =
      some [dummyNop, ⟨.Add, 0, 0, 1, 1⟩] ∧
    applyEditScript ([] : List String) ["A", "B"]
        [dummyNop, ⟨.Add, 0, 0, 1, 1⟩] = some ["B"] ∧
    some ["B"] ≠ some ["A", "B"] := by
  refine ⟨by decide, by decide, by decide⟩

/-- C10: on two empty sequences the search terminates at distance 0 with an
empty history, the trace is `[(0,0)]`, and the script is exactly the single
zero-length `{Nop,0,0,0,0}`; neither printer emits any line for it. -/
theorem c10_empty_inputs_single_zero_nop :
    shortest_edit_script ([] : List String) [] = some [dummyNop] ∧
    normal_print [] [] [dummyNop] = some [] ∧
    unified_print [] [] [dummyNop] = some [] := by
  refine ⟨by decide, by decide, by decide⟩

/-- C3 counterexample: for the identical pair `a = b = ["A"]` (n = 1) the
returned script is the single zero-length `{Nop,0,0,0,0}`, not a NoOp with
`orig_length = n = 1` as claimed. -/
theorem c3_identity_counterexample :
    shortest_edit_script ["A"] ["A"] = some [dummyNop] ∧
    shortest_edit_script ["A"] ["A"] ≠
      some [⟨.Nop, 0, 1, 0, 1⟩] := by
  refine ⟨by decide, by decide⟩

/-- C9 counterexample: the pipeline's own output for `a = []`, `b = ["A"]`
starts with the zero-width `{Nop,0,0,0,0}` instruction, which is neither a
pure Delete nor a pure Add, so the claimed invariant (no zero-width
instruction except for pure Delete/Add) fails on a returned script. -/
theorem c9_invariant_counterexample :
    shortest_edit_script ([] : List String) ["A"] =
      some [dummyNop, ⟨.Add, 0, 0, 0, 1⟩] ∧
    claimedScriptInvariant 0 1 [dummyNop, ⟨.Add, 0, 0, 0, 1⟩] = false := by
  refine ⟨by decide, by decide⟩

/-- C7 counterexample: hunk merging is NOT governed by the difference of
the `origStart` values.  Two Changes whose origStarts differ by exactly 6
end up in two separate hunks (first length 1: `6 ≤ 0 + 1 + 3` fails), while
two Changes whose origStarts differ by 7 are merged into one hunk (first
length 5: `7 ≤ 0 + 5 + 3` holds). -/
theorem c7_merge_rule_counterexample :
    (make_hunks [⟨.Change, 0, 1, 0, 1⟩, ⟨.Change, 6, 1, 6, 1⟩]).length = 2 ∧
    (make_hunks [⟨.Change, 0, 5, 0, 5⟩, ⟨.Change, 7, 1, 7, 1⟩]).length = 1 := by
  refine ⟨by decide, by decide⟩

/-- C7 witness: the amended merge rule at two concrete Changes (origStarts
0 and 5, first of length 1, so `5 ≤ 0 + 1 + 3` fails and two hunks result)
and a concrete hunk clamped into sequences of length 9. -/
theorem c7_hunk_merge_amended_witness :
    ((⟨.Change, 0, 1, 0, 1⟩ : EditInstruction).type ≠ .Nop) ∧
    ((⟨.Change, 5, 1, 5, 1⟩ : EditInstruction).type ≠ .Nop) ∧
    ((make_hunks [⟨.Change, 0, 1, 0, 1⟩, ⟨.Change, 5, 1, 5, 1⟩]).length =
      (if (⟨.Change, 5, 1, 5, 1⟩ : EditInstruction).orig_start ≤
          (⟨.Change, 0, 1, 0, 1⟩ : EditInstruction).orig_start +
          (⟨.Change, 0, 1, 0, 1⟩ : EditInstruction).orig_length + 3
        then 1 else 2) ∧
      0 ≤ ((Hunk.init ⟨.Change, 0, 1, 0, 1⟩).normalize_range 9 9).orig_start_ ∧
      ((Hunk.init ⟨.Change, 0, 1, 0, 1⟩).normalize_range 9 9).orig_end_ ≤ 9 ∧
      0 ≤ ((Hunk.init ⟨.Change, 0, 1, 0, 1⟩).normalize_range 9 9).new_start_ ∧
      ((Hunk.init ⟨.Change, 0, 1, 0, 1⟩).normalize_range 9 9).new_end_ ≤ 9) :=
  ⟨by decide, by decide,
    c7_hunk_merge_amended ⟨.Change, 0, 1, 0, 1⟩ ⟨.Change, 5, 1, 5, 1⟩
      (by decide) (by decide) 9 9 (Hunk.init ⟨.Change, 0, 1, 0, 1⟩)⟩

/-- C9 witness: the amended invariants at the concrete valid trace
`[(0,0), (1,0), (2,2)]` (one delete step, then an insert step followed by
a snake), whose script is `[{Nop,0,0,0,0}, {Change,0,1,0,1}, {Nop,1,1,1,1}]`. -/
theorem c9_script_invariants_amended_witness :
    validTraceB [((0 : Int), (0 : Int)), (1, 0), (2, 2)] = true ∧
    ∃ s', build_edit_script [((0 : Int), (0 : Int)), (1, 0), (2, 2)] =
        some (dummyNop :: s') ∧
      (∀ e ∈ s', shapeOK e) ∧
      List.Chain' adjRel (dummyNop :: s') ∧
      tilesOrig 0 s' 2 ∧
      tilesNew 0 s' 2 :=
  ⟨by decide,
    c9_script_invariants_amended ((0 : Int), (0 : Int)) [(1, 0), (2, 2)]
      (by decide)⟩

end MyersDiff
